import Mathlib

/-
Verification development for the `pdfsplit` repository
(src/pdfsplit/core.py): a shallow embedding of `split_pdf`,
`find_pdfs` and `split_many` together with theorems about their
behaviour.

Modelling conventions:
* PDF documents (the PyMuPDF `fitz` collaborator) are abstracted as a
  record with a page count, an encryption flag, an authentication
  oracle and a metadata dictionary; a sub-document produced by
  `insert_pdf` + `save` is recorded as a `PartFile` (its path, its
  1-based page bounds, its page count, and the metadata it carries).
* The filesystem is a record of the files on disk and the directories
  created; `split_pdf` threads this state explicitly and returns it
  also when it raises, mirroring Python exceptions that leave the
  filesystem as it was at the point of the raise.
* Paths are modelled as strings with `/` as separator (POSIX),
  re-implementing exactly the pieces of `pathlib` the code uses
  (`suffix`, `stem`, `name`, `parent`, `/`, `glob` matching with `*`
  and `?` on a single component, which covers the default `*.pdf`).
  On POSIX, `pathlib` glob matching is case sensitive.
* `str.format` is modelled for the placeholder/format-spec shapes the
  code documents (`stem`, `i`, `i0`, `start`, `end`, with `d`-type
  specs such as `02d`); an unknown placeholder is rendered back
  verbatim (the source would raise `KeyError`, a path no claim takes).
-/

namespace PdfSplit

/-! ## String and path helpers (model of the `pathlib` operations used) -/

/-- Split a list of characters on a separator character; mirrors
`str.split(sep)` semantics (`splitOnChar sep [] = [[]]`). -/
def splitOnChar (sep : Char) : List Char → List (List Char)
  | [] => [[]]
  | c :: cs =>
    let r := splitOnChar sep cs
    if c = sep then [] :: r
    else
      match r with
      | [] => [[c]]
      | g :: gs => (c :: g) :: gs

/-- Join character groups with a separator character. -/
def joinChar (sep : Char) : List (List Char) → List Char
  | [] => []
  | [g] => g
  | g :: gs => g ++ sep :: joinChar sep gs

/-- ASCII lower-casing of a string, the model of `str.lower()`. -/
def lowerStr (s : String) : String :=
  String.mk (s.data.map Char.toLower)

/-- The final path component, the model of `pathlib.Path.name`. -/
def basenameOf (p : String) : String :=
  String.mk ((splitOnChar '/' p.data).getLastD [])

/-- Model of `pathlib.Path.suffix` on a file name: the part of the name
from the last dot on, provided that dot is neither the first nor the
last character. -/
def nameSuffix (name : String) : String :=
  let cs := name.data
  match cs.reverse.findIdx? (fun c => c = '.') with
  | none => ""
  | some r =>
    let i := cs.length - 1 - r
    if 0 < i ∧ i < cs.length - 1 then String.mk (cs.drop i) else ""

/-- Model of `pathlib.Path.stem` on a file name: the name with
`nameSuffix` removed. -/
def nameStem (name : String) : String :=
  let cs := name.data
  match cs.reverse.findIdx? (fun c => c = '.') with
  | none => name
  | some r =>
    let i := cs.length - 1 - r
    if 0 < i ∧ i < cs.length - 1 then String.mk (cs.take i) else name

/-- Model of `pathlib.Path.parent` for relative POSIX paths. -/
def parentOf (p : String) : String :=
  let parts := splitOnChar '/' p.data
  if parts.length ≤ 1 then "." else String.mk (joinChar '/' parts.dropLast)

/-- Model of the `/` path join (`output_dir / name`). -/
def joinPath (dir name : String) : String :=
  if dir = "." then name else dir ++ "/" ++ name

/-- Every prefix directory of a path, innermost last; the set of
directories `mkdir(parents=True)` guarantees to exist afterwards. -/
def ancestors (p : String) : List String :=
  let parts := splitOnChar '/' p.data
  (List.range parts.length).map (fun k => String.mk (joinChar '/' (parts.take (k + 1))))

/-- Shell-style glob matching on one path component with `*` and `?`,
the model of the `fnmatch`-style matching `pathlib.Path.glob` performs
on POSIX (case sensitive; character classes are not modelled, the
default pattern `*.pdf` does not use them). -/
def globMatch : List Char → List Char → Bool
  | [], cs => cs.isEmpty
  | '*' :: ps, cs => cs.tails.any (fun suf => globMatch ps suf)
  | '?' :: ps, cs =>
    match cs with
    | [] => false
    | _ :: cs' => globMatch ps cs'
  | p :: ps, cs =>
    match cs with
    | [] => false
    | c :: cs' => p == c && globMatch ps cs'

/-! ## Model of `str.format` for the naming pattern (core.py line 77) -/

/-- Parse a decimal numeral from characters (used for format-spec
widths such as the `2` in `02d`). -/
def parseNatChars (cs : List Char) : Option Nat :=
  if cs.isEmpty then none
  else
    cs.foldl
      (fun acc c =>
        match acc with
        | none => none
        | some n => if c.isDigit then some (n * 10 + (c.toNat - 48)) else none)
      (some 0)

/-- Left-pad a string to a width with a fill character. -/
def padWith (c : Char) (w : Nat) (s : String) : String :=
  String.mk (List.replicate (w - s.length) c) ++ s

/-- Apply a `d`-type Python format spec (such as `02d`, `3d`, `d` or
the empty spec) to a natural number. -/
def fmtNat (spec : String) (n : Nat) : String :=
  let s := Nat.repr n
  let core :=
    match spec.data.getLast? with
    | some 'd' => spec.data.dropLast
    | _ => spec.data
  match core with
  | [] => s
  | c :: _ =>
    match parseNatChars core with
    | some w => padWith (if c = '0' then '0' else ' ') w s
    | none => s

/-- Render one `\x7b...\x7d` replacement field of the naming pattern.
The supported keys are exactly those `split_pdf` passes to
`str.format`: `stem`, `i`, `i0`, `start`, `end`. -/
def renderField (stem : String) (i i0 s e : Nat) (field : String) : String :=
  match splitOnChar ':' field.data with
  | [] => ""
  | key :: rest =>
    let spec := String.mk (if rest.isEmpty then [] else joinChar ':' rest)
    match String.mk key with
    | "stem" => stem
    | "i" => fmtNat spec i
    | "i0" => fmtNat spec i0
    | "start" => fmtNat spec s
    | "end" => fmtNat spec e
    | _ => "\x7b" ++ field ++ "\x7d"

/-- Worker for `renderPattern`: `inField = false` copies literal
characters, `inField = true` accumulates a replacement field until the
closing brace. -/
def renderAux (stem : String) (i i0 s e : Nat) :
    Bool → List Char → List Char → String
  | false, _, [] => ""
  | false, acc, c :: rest =>
    if c = '{' then renderAux stem i i0 s e true [] rest
    else String.singleton c ++ renderAux stem i i0 s e false acc rest
  | true, acc, [] => "\x7b" ++ String.mk acc.reverse
  | true, acc, c :: rest =>
    if c = '}' then
      renderField stem i i0 s e (String.mk acc.reverse) ++
        renderAux stem i i0 s e false [] rest
    else renderAux stem i i0 s e true (c :: acc) rest

/-- Model of `pattern.format(stem=..., i=..., i0=..., start=..., end=...)`
at core.py line 77. -/
def renderPattern (pattern stem : String) (i i0 s e : Nat) : String :=
  renderAux stem i i0 s e false [] pattern.data

/-! ## Data model -/

/-- Model of `_ensure_pdf_suffix` (core.py line 9). -/
def ensurePdfSuffix (name : String) : String :=
  if (".pdf".data).isSuffixOf (lowerStr name).data then name else name ++ ".pdf"

/-- An opened source document: the slice of the PyMuPDF document
handle `split_pdf` consumes (`page_count`, `is_encrypted`,
`authenticate`, `metadata`). -/
structure Doc where
  pageCount : Nat
  isEncrypted : Bool
  auth : String → Bool
  metadata : List (String × String)

/-- One output chunk as written to disk: its resolved path, its
1-based inclusive page bounds, its page count, and the metadata the
saved sub-document carries (`[]` stands for the fresh-document
default). -/
structure PartFile where
  path : String
  start1 : Nat
  end1 : Nat
  pages : Nat
  metadata : List (String × String)
deriving DecidableEq, Repr

/-- The filesystem state threaded through the operations: the files on
disk and the directories that exist. -/
structure FS where
  files : List PartFile
  dirs : List String
deriving DecidableEq, Repr

/-- The errors `split_pdf` raises: `ValueError` for a non-positive
`max_pages`, the two `ValueError`s of the encryption checks, and
`FileExistsError` for an output collision. -/
inductive SplitError where
  | invalidMaxPages : SplitError
  | encryptedNoPassword : SplitError
  | wrongPassword : SplitError
  | outputExists : String → SplitError
deriving DecidableEq, Repr

/-- The keyword parameters of `split_pdf` with their Python defaults. -/
structure Config where
  max_pages : Int := 10
  output_dir : Option String := none
  output_pattern : Option String := none
  password : Option String := none
  keep_metadata : Bool := true
  overwrite : Bool := false

/-- Does a file with this path exist (`out_path.exists()`)? -/
def existsPath (fs : FS) (p : String) : Bool :=
  fs.files.any (fun f => f.path == p)

/-- Write a file: `part_doc.save(out_path, ...)` replaces any file at
that path. -/
def writeFile (fs : FS) (pf : PartFile) : FS :=
  { fs with files := fs.files.filter (fun f => !(f.path == pf.path)) ++ [pf] }

/-- Model of `output_dir.mkdir(parents=True, exist_ok=True)`:
the directory and every missing ancestor are created. -/
def mkdirP (dirs : List String) (p : String) : List String :=
  dirs ++ (ancestors p).filter (fun d => !(dirs.contains d))

/-- The filesystem after `output_dir.mkdir(parents=True, exist_ok=True)`. -/
def mkdirFS (fs : FS) (d : String) : FS :=
  { fs with dirs := mkdirP fs.dirs d }

/-- Python truthiness of the `password` argument: `not password` is
true for `None` and for the empty string (core.py line 62). -/
def passwordMissing : Option String → Bool
  | none => true
  | some s => s == ""

/-- Erase the metadata of a written chunk (used to state that
everything except metadata is independent of metadata-copy failures). -/
def scrubFile (pf : PartFile) : PartFile :=
  { pf with metadata := [] }

/-- Erase the metadata of every file on disk. -/
def scrubFS (fs : FS) : FS :=
  { fs with files := fs.files.map scrubFile }

/-- Erase the metadata everywhere in a `split_pdf` result. -/
def scrubRes (r : Except SplitError (List PartFile) × FS) :
    Except SplitError (List PartFile) × FS :=
  (r.1.map (List.map scrubFile), scrubFS r.2)

/-! ## The splitter (core.py `split_pdf`, lines 13-98) -/

/-- The output directory after defaulting: `output_dir` if given, else
the parent of the input (core.py lines 49-51). -/
def resolvedOutDir (input_pdf : String) (cfg : Config) : String :=
  match cfg.output_dir with
  | none => parentOf input_pdf
  | some d => d

/-- The naming pattern after defaulting: `output_pattern or
"\x7bstem\x7d_part_\x7bi:02d\x7d.pdf"`; Python `or` also replaces the
empty string (core.py line 57). -/
def resolvedPattern (cfg : Config) : String :=
  match cfg.output_pattern with
  | none => "\x7bstem\x7d_part_\x7bi:02d\x7d.pdf"
  | some s => if s = "" then "\x7bstem\x7d_part_\x7bi:02d\x7d.pdf" else s

/-- Number of chunks: `math.ceil(total / max_pages)` (core.py line 68). -/
def partsCount (total m : Nat) : Nat :=
  (total + m - 1) / m

/-- The chunk with 0-based index `idx`, exactly as the loop body of
core.py lines 71-96 builds it: page bounds, rendered output name with
enforced `.pdf` suffix resolved against the output directory, and the
metadata of the saved sub-document (`metaFail idx` models
`part_doc.set_metadata` raising, which the code swallows). -/
def chunkOf (input_pdf : String) (doc : Doc) (cfg : Config)
    (metaFail : Nat → Bool) (idx : Nat) : PartFile :=
  let m := cfg.max_pages.toNat
  let total := doc.pageCount
  let start0 := idx * m
  let end0 := min (start0 + m) total - 1
  let start1 := start0 + 1
  let end1 := end0 + 1
  let outName :=
    renderPattern (resolvedPattern cfg) (nameStem (basenameOf input_pdf))
      (idx + 1) idx start1 end1
  { path := joinPath (resolvedOutDir input_pdf cfg) (ensurePdfSuffix outName)
    start1 := start1
    end1 := end1
    pages := end0 + 1 - start0
    metadata :=
      if cfg.keep_metadata && !(metaFail idx) then doc.metadata else [] }

/-- The `for idx in range(parts)` loop of core.py lines 71-96:
check the collision, then build and write the chunk and append its
path to the results. -/
def splitChunks (part : Nat → PartFile) (overwrite : Bool) :
    List Nat → List PartFile → FS → Except SplitError (List PartFile) × FS
  | [], acc, fs => (.ok acc, fs)
  | idx :: rest, acc, fs =>
    let pf := part idx
    if existsPath fs pf.path && !overwrite then
      (.error (.outputExists pf.path), fs)
    else
      splitChunks part overwrite rest (acc ++ [pf]) (writeFile fs pf)

/-- Model of `split_pdf` (core.py lines 13-98): create the output
directory, validate `max_pages`, run the encryption checks, then emit
the chunks.  The returned list models the returned `outputs` (each
entry also records what was saved at that path). -/
def split_pdf (input_pdf : String) (doc : Doc) (cfg : Config)
    (metaFail : Nat → Bool) (fs : FS) :
    Except SplitError (List PartFile) × FS :=
  if cfg.max_pages ≤ 0 then
    (.error .invalidMaxPages, mkdirFS fs (resolvedOutDir input_pdf cfg))
  else if doc.isEncrypted && passwordMissing cfg.password then
    (.error .encryptedNoPassword, mkdirFS fs (resolvedOutDir input_pdf cfg))
  else if doc.isEncrypted && !(doc.auth (cfg.password.getD "")) then
    (.error .wrongPassword, mkdirFS fs (resolvedOutDir input_pdf cfg))
  else
    splitChunks (chunkOf input_pdf doc cfg metaFail) cfg.overwrite
      (List.range (partsCount doc.pageCount cfg.max_pages.toNat)) []
      (mkdirFS fs (resolvedOutDir input_pdf cfg))

/-! ## The discoverer (core.py `find_pdfs`, lines 101-130) -/

/-- The filesystem view `find_pdfs` queries: file/directory tests
(following symlinks, as `Path.is_file` does), directory enumeration in
filesystem order (`children` for `glob`, `descendants` for `rglob`,
both listing every entry whose final component the pattern is matched
against), and canonical resolution (`Path.resolve`, which follows
symlinks). -/
structure DFS where
  isFile : String → Bool
  isDir : String → Bool
  children : String → List String
  descendants : String → List String
  resolve : String → String

/-- The de-duplication pass of core.py lines 124-129: keep the first
occurrence of each resolved identity, in traversal order. -/
def dedupResolve (resolve : String → String) (l : List String) : List String :=
  (l.foldl
      (fun st f =>
        if st.1.contains (resolve f) then st
        else (st.1 ++ [resolve f], st.2 ++ [f]))
      (([], []) : List String × List String)).2

/-- Model of `find_pdfs` (core.py lines 101-130): a direct file is
included when its suffix lower-cases to `.pdf`; a directory
contributes its (recursive, when `recursive`) entries whose name
matches the glob pattern and which are files; anything else is
skipped; finally duplicates by resolved identity are removed. -/
def find_pdfs (dfs : DFS) (paths : List String) (recursive : Bool)
    (pattern : String) : List String :=
  let found :=
    paths.foldl
      (fun acc p =>
        if dfs.isFile p && (lowerStr (nameSuffix (basenameOf p)) == ".pdf") then
          acc ++ [p]
        else if dfs.isDir p then
          acc ++
            (if recursive then dfs.descendants p else dfs.children p).filter
              (fun x => globMatch pattern.data (basenameOf x).data && dfs.isFile x)
        else acc)
      []
  dedupResolve dfs.resolve found

/-! ## Batch orchestration (core.py `split_many`, lines 133-160) -/

/-- Per-file output directory: `Path(output_dir) if output_dir else
pdf.parent` — Python truthiness makes the empty string fall back to
the parent as well (core.py line 148). -/
def outDirFor (od : Option String) (pdf : String) : String :=
  match od with
  | none => parentOf pdf
  | some d => if d = "" then parentOf pdf else d

/-- The `Config` with which `split_many` invokes `split_pdf` on one
discovered file (core.py lines 149-158). -/
def manyCfg (mp : Int) (od op pw : Option String) (km ow : Bool)
    (pdf : String) : Config :=
  { max_pages := mp
    output_dir := some (outDirFor od pdf)
    output_pattern := op
    password := pw
    keep_metadata := km
    overwrite := ow }

/-- The `for pdf in pdfs` loop of core.py lines 147-159: split each
file in order, concatenating results; an error propagates immediately
with the filesystem as the failing call left it. -/
def splitManyLoop (docOf : String → Doc) (mfOf : String → Nat → Bool)
    (mp : Int) (od op pw : Option String) (km ow : Bool) :
    List String → List PartFile → FS → Except SplitError (List PartFile) × FS
  | [], acc, fs => (.ok acc, fs)
  | pdf :: rest, acc, fs =>
    match split_pdf pdf (docOf pdf) (manyCfg mp od op pw km ow pdf) (mfOf pdf) fs with
    | (.ok outs, fs') => splitManyLoop docOf mfOf mp od op pw km ow rest (acc ++ outs) fs'
    | (.error e, fs') => (.error e, fs')

/-- Model of `split_many` (core.py lines 133-160): discover with the
default `*.pdf` pattern, then split each file with the shared
configuration.  `docOf` and `mfOf` supply the opened document and the
metadata-failure oracle for each path. -/
def split_many (dfs : DFS) (docOf : String → Doc) (mfOf : String → Nat → Bool)
    (inputs : List String) (mp : Int) (od op : Option String) (recursive : Bool)
    (pw : Option String) (km ow : Bool) (fs : FS) :
    Except SplitError (List PartFile) × FS :=
  splitManyLoop docOf mfOf mp od op pw km ow
    (find_pdfs dfs inputs recursive "*.pdf") [] fs

/-- Decidable equality for `Except`, so that concrete runs of the
model can be checked by `decide`. -/
instance {ε α : Type} [DecidableEq ε] [DecidableEq α] :
    DecidableEq (Except ε α) := fun a b =>
  match a, b with
  | .ok x, .ok y =>
    if h : x = y then .isTrue (by rw [h])
    else .isFalse (fun hc => h (Except.ok.inj hc))
  | .ok _, .error _ => .isFalse (fun hc => Except.noConfusion hc)
  | .error _, .ok _ => .isFalse (fun hc => Except.noConfusion hc)
  | .error x, .error y =>
    if h : x = y then .isTrue (by rw [h])
    else .isFalse (fun hc => h (Except.error.inj hc))

/-! ## Concrete instances used by the witnesses below -/

/-- A metadata-copy oracle that never fails. -/
def mfFalse : Nat → Bool := fun _ => false

/-- An unencrypted 23-page document, the `test_split_basic` scenario. -/
def docA : Doc :=
  { pageCount := 23
    isEncrypted := false
    auth := fun _ => false
    metadata := [("title", "Demo")] }

/-- The default configuration (all Python defaults). -/
def cfgA : Config := {}

/-- An empty filesystem. -/
def fs0 : FS := { files := [], dirs := [] }

/-- The three chunks `split_pdf` produces for `docA` under `cfgA`. -/
def outA : List PartFile :=
  [{ path := "demo_part_01.pdf", start1 := 1, end1 := 10, pages := 10
     metadata := [("title", "Demo")] },
   { path := "demo_part_02.pdf", start1 := 11, end1 := 20, pages := 10
     metadata := [("title", "Demo")] },
   { path := "demo_part_03.pdf", start1 := 21, end1 := 23, pages := 3
     metadata := [("title", "Demo")] }]

/-- The filesystem after the successful `docA` split. -/
def fsA : FS := { files := outA, dirs := ["."] }

/-- A filesystem on which the second chunk's output path is taken. -/
def fsB : FS :=
  { files := [{ path := "demo_part_02.pdf", start1 := 0, end1 := 0, pages := 0
                metadata := [] }]
    dirs := [] }

/-- An encrypted 5-page document accepting exactly the password `pw`. -/
def docE : Doc :=
  { pageCount := 5
    isEncrypted := true
    auth := fun s => s == "pw"
    metadata := [] }

/-- An encrypted document whose authentication oracle accepts every
string, including the empty one. -/
def docAcceptAll : Doc :=
  { pageCount := 4
    isEncrypted := true
    auth := fun _ => true
    metadata := [] }

/-- A metadata-copy oracle failing exactly on the first chunk. -/
def mfFirst : Nat → Bool := fun i => i == 0

/-- The chunks produced for `docA` when the metadata copy fails on the
first chunk: identical to `outA` except that chunk 0 carries the
fresh-document default metadata. -/
def outF : List PartFile :=
  [{ path := "demo_part_01.pdf", start1 := 1, end1 := 10, pages := 10
     metadata := [] },
   { path := "demo_part_02.pdf", start1 := 11, end1 := 20, pages := 10
     metadata := [("title", "Demo")] },
   { path := "demo_part_03.pdf", start1 := 21, end1 := 23, pages := 3
     metadata := [("title", "Demo")] }]

/-- The filesystem after the `outF` run. -/
def fsF : FS := { files := outF, dirs := ["."] }

/-- Configuration with a wrong password. -/
def cfgWrong : Config := { password := some "bad" }

/-- Configuration with the empty string as password. -/
def cfgEmptyPw : Config := { password := some "" }

/-- Configuration with the invalid `max_pages = 0`. -/
def cfgZero : Config := { max_pages := 0 }

/-- Configuration with a negative `max_pages` and a nested output
directory. -/
def cfgNeg : Config := { max_pages := -3, output_dir := some "out/sub" }

/-- Configuration with `overwrite = true`. -/
def cfgOW : Config := { overwrite := true }

/-- The directory scenario of the discovery claim: `d` contains
`a.pdf`, `b.PDF`, `c.txt` and `link.pdf`, a symlink to `a.pdf`. -/
def dfsC3 : DFS :=
  { isFile := fun p =>
      p == "d/a.pdf" || p == "d/b.PDF" || p == "d/c.txt" || p == "d/link.pdf"
    isDir := fun p => p == "d"
    children := fun p =>
      if p == "d" then ["d/a.pdf", "d/b.PDF", "d/c.txt", "d/link.pdf"] else []
    descendants := fun p =>
      if p == "d" then ["d/a.pdf", "d/b.PDF", "d/c.txt", "d/link.pdf"] else []
    resolve := fun p => if p == "d/link.pdf" then "d/a.pdf" else p }

/-- A document oracle opening every path as the encrypted `docE`. -/
def docOfEnc : String → Doc := fun _ => docE

/-- A per-file metadata oracle that never fails. -/
def mfOfFalse : String → Nat → Bool := fun _ _ => false

/-! ## Basic lemmas about the chunk loop and the filesystem model -/

lemma splitChunks_ok_eq (part : Nat → PartFile) (ow : Bool) :
    ∀ (idxs : List Nat) (acc : List PartFile) (fs : FS) (out : List PartFile) (fs' : FS),
      splitChunks part ow idxs acc fs = (.ok out, fs') → out = acc ++ idxs.map part := by
  intro idxs
  induction idxs with
  | nil =>
    intro acc fs out fs' h
    simp only [splitChunks, Prod.mk.injEq, Except.ok.injEq] at h
    simp [h.1]
  | cons idx rest ih =>
    intro acc fs out fs' h
    simp only [splitChunks] at h
    split at h
    · exact absurd h (by simp)
    · have := ih _ _ _ _ h
      simpa [List.append_assoc] using this

lemma any_path_filter (l : List PartFile) (p q : String) (hne : p ≠ q) :
    (l.filter (fun f => !(f.path == q))).any (fun f => f.path == p)
      = l.any (fun f => f.path == p) := by
  induction l with
  | nil => rfl
  | cons f rest ih =>
    by_cases hf : f.path = q
    · have h1 : (f.path == q) = true := beq_iff_eq.mpr hf
      have h2 : (f.path == p) = false := by
        rw [hf]; exact beq_eq_false_iff_ne.mpr (Ne.symm hne)
      simp [List.filter_cons, List.any_cons, h1, h2, ih]
    · have h1 : (f.path == q) = false := beq_eq_false_iff_ne.mpr hf
      simp [List.filter_cons, List.any_cons, h1, ih]

lemma existsPath_writeFile (fs : FS) (pf : PartFile) (p : String) :
    existsPath (writeFile fs pf) p = (p == pf.path || existsPath fs p) := by
  by_cases hp : p = pf.path
  · subst hp
    simp [existsPath, writeFile, List.any_append]
  · have h1 : (p == pf.path) = false := beq_eq_false_iff_ne.mpr hp
    have h2 : (pf.path == p) = false := beq_eq_false_iff_ne.mpr (Ne.symm hp)
    simp [existsPath, writeFile, List.any_append, h1, h2,
      any_path_filter fs.files p pf.path hp]

lemma writeFile_files_of_not_exists (fs : FS) (pf : PartFile)
    (h : existsPath fs pf.path = false) :
    (writeFile fs pf).files = fs.files ++ [pf] := by
  unfold writeFile
  simp only
  congr 1
  apply List.filter_eq_self.mpr
  intro f hf
  simp only [existsPath, List.any_eq_false] at h
  simpa using h f hf

lemma existsPath_mkdirFS (fs : FS) (d : String) (p : String) :
    existsPath (mkdirFS fs d) p = existsPath fs p := rfl

lemma writeFile_dirs (fs : FS) (pf : PartFile) :
    (writeFile fs pf).dirs = fs.dirs := rfl

lemma mem_mkdirP (dirs : List String) (p : String) (d : String)
    (hd : d ∈ ancestors p) : d ∈ mkdirP dirs p := by
  unfold mkdirP
  by_cases hc : dirs.contains d
  · exact List.mem_append.mpr (Or.inl (List.elem_iff.mp hc))
  · refine List.mem_append.mpr (Or.inr (List.mem_filter.mpr ⟨hd, ?_⟩))
    simp only [Bool.not_eq_true] at hc
    simp only [hc, Bool.not_false]

/-! ## Arithmetic of the chunk count (`math.ceil(total / max_pages)`) -/

lemma partsCount_pos {T m : Nat} (hT : 0 < T) (hm : 0 < m) :
    0 < partsCount T m := by
  have h := (Nat.one_le_div_iff hm).mpr (show m ≤ T + m - 1 by omega)
  simpa [partsCount] using h

lemma le_partsCount_mul {T m : Nat} (_hT : 0 < T) (hm : 0 < m) :
    T ≤ partsCount T m * m := by
  have hdm := Nat.div_add_mod (T + m - 1) m
  have hr : (T + m - 1) % m < m := Nat.mod_lt _ hm
  unfold partsCount
  rw [Nat.mul_comm]
  obtain ⟨x, hx⟩ : ∃ x, m * ((T + m - 1) / m) = x := ⟨_, rfl⟩
  rw [hx] at hdm ⊢
  omega

lemma partsCount_mul_pred_lt {T m : Nat} (hT : 0 < T) (hm : 0 < m) :
    (partsCount T m - 1) * m < T := by
  have hds : partsCount T m * m ≤ T + m - 1 := Nat.div_mul_le_self _ _
  rw [Nat.sub_mul, Nat.one_mul]
  obtain ⟨x, hx⟩ : ∃ x, partsCount T m * m = x := ⟨_, rfl⟩
  rw [hx] at hds ⊢
  omega

lemma mul_lt_of_lt_partsCount {T m k : Nat} (hT : 0 < T) (hm : 0 < m)
    (hk : k < partsCount T m) : k * m < T := by
  have h1 : k ≤ partsCount T m - 1 := by omega
  have h2 : k * m ≤ (partsCount T m - 1) * m := Nat.mul_le_mul_right m h1
  exact lt_of_le_of_lt h2 (partsCount_mul_pred_lt hT hm)

lemma sum_range_min_sub (m T : Nat) (n : Nat) :
    ((List.range n).map (fun k => min ((k + 1) * m) T - k * m)).sum
      = min (n * m) T := by
  induction n with
  | zero => simp
  | succ n ih =>
    rw [List.range_succ, List.map_append, List.sum_append]
    simp only [List.map_cons, List.map_nil, List.sum_cons, List.sum_nil,
      Nat.add_zero]
    rw [ih]
    have hs : (n + 1) * m = n * m + m := Nat.succ_mul n m
    obtain ⟨x, hx⟩ : ∃ x, n * m = x := ⟨_, rfl⟩
    rw [hs, hx]
    rcases Nat.le_total x T with h | h
    · rw [min_eq_left h]
      rcases Nat.le_total (x + m) T with h2 | h2
      · rw [min_eq_left h2]; omega
      · rw [min_eq_right h2]; omega
    · rw [min_eq_right h]
      have h2 : T ≤ x + m := le_trans h (Nat.le_add_right x m)
      rw [min_eq_right h2]; omega

/-! ## Shape of one chunk -/

lemma chunkOf_start1 (i : String) (d : Doc) (c : Config) (mf : Nat → Bool) (k : Nat) :
    (chunkOf i d c mf k).start1 = k * c.max_pages.toNat + 1 := rfl

lemma chunkOf_end1 {i : String} {d : Doc} {c : Config} {mf : Nat → Bool} {k : Nat}
    (hm : 0 < c.max_pages.toNat) (hT : 0 < d.pageCount) :
    (chunkOf i d c mf k).end1 = min ((k + 1) * c.max_pages.toNat) d.pageCount := by
  show min (k * c.max_pages.toNat + c.max_pages.toNat) d.pageCount - 1 + 1 = _
  rw [Nat.succ_mul]
  have h1 : 0 < min (k * c.max_pages.toNat + c.max_pages.toNat) d.pageCount :=
    lt_min (by omega) hT
  omega

lemma chunkOf_pages {i : String} {d : Doc} {c : Config} {mf : Nat → Bool} {k : Nat}
    (hm : 0 < c.max_pages.toNat) (hT : 0 < d.pageCount) :
    (chunkOf i d c mf k).pages
      = min ((k + 1) * c.max_pages.toNat) d.pageCount - k * c.max_pages.toNat := by
  show min (k * c.max_pages.toNat + c.max_pages.toNat) d.pageCount - 1 + 1
      - k * c.max_pages.toNat = _
  rw [Nat.succ_mul]
  have h1 : 0 < min (k * c.max_pages.toNat + c.max_pages.toNat) d.pageCount :=
    lt_min (by omega) hT
  omega

/-- With `overwrite = true` the collision check never fires, so the
value component of the chunk loop does not depend on the filesystem. -/
lemma splitChunks_fst_overwrite (part : Nat → PartFile) :
    ∀ (idxs : List Nat) (acc : List PartFile) (fsa fsb : FS),
      (splitChunks part true idxs acc fsa).1
        = (splitChunks part true idxs acc fsb).1 := by
  intro idxs
  induction idxs with
  | nil => intro acc fsa fsb; rfl
  | cons idx rest ih =>
    intro acc fsa fsb
    simp only [splitChunks, Bool.not_true, Bool.and_false, Bool.false_eq_true,
      if_false]
    exact ih _ _ _

lemma scrubFile_path (pf : PartFile) : (scrubFile pf).path = pf.path := rfl

lemma existsPath_scrubFS (fs : FS) (p : String) :
    existsPath (scrubFS fs) p = existsPath fs p := by
  show (fs.files.map scrubFile).any (fun f => f.path == p) = _
  rw [List.any_map]
  rfl

lemma filter_path_map_scrub (l : List PartFile) (p : String) :
    (l.filter (fun f => !(f.path == p))).map scrubFile
      = (l.map scrubFile).filter (fun f => !(f.path == p)) := by
  induction l with
  | nil => rfl
  | cons f rest ih =>
    by_cases hf : (f.path == p) = true
    · simp [List.filter_cons, List.map_cons, scrubFile_path, hf, ih]
    · simp only [Bool.not_eq_true] at hf
      simp [List.filter_cons, List.map_cons, scrubFile_path, hf, ih]

lemma scrub_writeFile (fs : FS) (pf : PartFile) :
    scrubFS (writeFile fs pf) = writeFile (scrubFS fs) (scrubFile pf) := by
  show FS.mk ((fs.files.filter (fun f => !(f.path == pf.path)) ++ [pf]).map scrubFile)
      fs.dirs
    = FS.mk ((fs.files.map scrubFile).filter
        (fun f => !(f.path == (scrubFile pf).path)) ++ [scrubFile pf]) fs.dirs
  rw [List.map_append, filter_path_map_scrub]
  rfl

/-- Two runs of the chunk loop whose chunks agree up to metadata agree
up to metadata in results and filesystem. -/
lemma splitChunks_scrub (p1 p2 : Nat → PartFile)
    (hp : ∀ i, scrubFile (p1 i) = scrubFile (p2 i)) (ow : Bool) :
    ∀ (idxs : List Nat) (acc1 acc2 : List PartFile) (fs1 fs2 : FS),
      acc1.map scrubFile = acc2.map scrubFile →
      scrubFS fs1 = scrubFS fs2 →
      scrubRes (splitChunks p1 ow idxs acc1 fs1)
        = scrubRes (splitChunks p2 ow idxs acc2 fs2) := by
  intro idxs
  induction idxs with
  | nil =>
    intro acc1 acc2 fs1 fs2 hacc hfs
    simp [splitChunks, scrubRes, Except.map, hacc, hfs]
  | cons idx rest ih =>
    intro acc1 acc2 fs1 fs2 hacc hfs
    have hpath0 := congrArg PartFile.path (hp idx)
    have hpath : (p1 idx).path = (p2 idx).path := hpath0
    have hex : existsPath fs1 (p1 idx).path = existsPath fs2 (p2 idx).path := by
      rw [hpath, ← existsPath_scrubFS fs1, ← existsPath_scrubFS fs2, hfs]
    simp only [splitChunks]
    by_cases hc : (existsPath fs1 (p1 idx).path && !ow) = true
    · rw [if_pos hc, if_pos (by rw [← hex]; exact hc)]
      simp [scrubRes, hpath, hfs]
    · rw [if_neg hc, if_neg (by rw [← hex]; exact hc)]
      apply ih
      · rw [List.map_append, List.map_append, hacc]
        simp [hp idx]
      · rw [scrub_writeFile, scrub_writeFile, hfs, hp idx]

/-- The chunk loop never removes a path from the filesystem. -/
lemma splitChunks_preserve (part : Nat → PartFile) (ow : Bool) :
    ∀ (idxs : List Nat) (acc : List PartFile) (fs : FS) (q : String),
      existsPath fs q = true →
      existsPath (splitChunks part ow idxs acc fs).2 q = true := by
  intro idxs
  induction idxs with
  | nil => intro acc fs q h; exact h
  | cons idx rest ih =>
    intro acc fs q h
    simp only [splitChunks]
    split
    · exact h
    · apply ih
      rw [existsPath_writeFile, h]
      simp

/-- `split_pdf` never removes a path from the filesystem, whether it
succeeds or fails. -/
lemma split_pdf_preserve (i : String) (d : Doc) (c : Config) (mf : Nat → Bool) :
    ∀ (fs : FS) (r : Except SplitError (List PartFile)) (fs' : FS) (q : String),
      split_pdf i d c mf fs = (r, fs') →
      existsPath fs q = true → existsPath fs' q = true := by
  intro fs r fs' q h hq
  unfold split_pdf at h
  split at h
  · injection h with ha hb
    subst hb; exact hq
  · split at h
    · injection h with ha hb
      subst hb; exact hq
    · split at h
      · injection h with ha hb
        subst hb; exact hq
      · have h2 : (splitChunks (chunkOf i d c mf) c.overwrite
            (List.range (partsCount d.pageCount c.max_pages.toNat)) []
            (mkdirFS fs (resolvedOutDir i c))).2 = fs' := congrArg Prod.snd h
        rw [← h2]
        exact splitChunks_preserve _ _ _ _ _ _ hq

/-- A successful prefix of the batch loop composes with the rest. -/
lemma splitManyLoop_append (docOf : String → Doc) (mfOf : String → Nat → Bool)
    (mp : Int) (od op pw : Option String) (km ow : Bool) :
    ∀ (pre post : List String) (acc acc' : List PartFile) (fs fs' : FS),
      splitManyLoop docOf mfOf mp od op pw km ow pre acc fs = (.ok acc', fs') →
      splitManyLoop docOf mfOf mp od op pw km ow (pre ++ post) acc fs
        = splitManyLoop docOf mfOf mp od op pw km ow post acc' fs' := by
  intro pre
  induction pre with
  | nil =>
    intro post acc acc' fs fs' h
    simp only [splitManyLoop, Prod.mk.injEq, Except.ok.injEq] at h
    rw [List.nil_append, h.1, h.2]
  | cons pdf rest ih =>
    intro post acc acc' fs fs' h
    rw [List.cons_append]
    rcases hsp : split_pdf pdf (docOf pdf) (manyCfg mp od op pw km ow pdf)
      (mfOf pdf) fs with ⟨r, fsx⟩
    cases r with
    | ok outs =>
      simp only [splitManyLoop, hsp] at h ⊢
      exact ih post (acc ++ outs) acc' fsx fs' h
    | error e =>
      simp only [splitManyLoop, hsp] at h
      exact absurd h (by simp)

/-- Elimination: a successful `split_pdf` went through all the guards
and is the chunk loop started on the post-`mkdir` state. -/
lemma split_pdf_ok_elim {i : String} {d : Doc} {c : Config} {mf : Nat → Bool}
    {fs : FS} {out : List PartFile} {fs' : FS}
    (h : split_pdf i d c mf fs = (.ok out, fs')) :
    splitChunks (chunkOf i d c mf) c.overwrite
      (List.range (partsCount d.pageCount c.max_pages.toNat)) []
      (mkdirFS fs (resolvedOutDir i c)) = (.ok out, fs') := by
  unfold split_pdf at h
  split at h
  · exact absurd h (by simp)
  · split at h
    · exact absurd h (by simp)
    · split at h
      · exact absurd h (by simp)
      · exact h

/-- When `max_pages` is valid and the source is not encrypted,
`split_pdf` is the chunk loop on the post-`mkdir` state. -/
lemma split_pdf_run {i : String} {d : Doc} {c : Config} (mf : Nat → Bool) (fs : FS)
    (henc : d.isEncrypted = false) (hm : 0 < c.max_pages) :
    split_pdf i d c mf fs
      = splitChunks (chunkOf i d c mf) c.overwrite
          (List.range (partsCount d.pageCount c.max_pages.toNat)) []
          (mkdirFS fs (resolvedOutDir i c)) := by
  unfold split_pdf
  rw [if_neg (by omega), henc]
  simp

/-- If none of the chunk paths in `[a, j)` exist, chunk `j`'s path
exists, and the chunk paths up to `j` are pairwise distinct, the loop
without `overwrite` writes exactly the chunks in `[a, j)` and then
aborts with `FileExistsError` for chunk `j`. -/
lemma splitChunks_abort (part : Nat → PartFile) (j : Nat) :
    ∀ (n a : Nat) (acc : List PartFile) (fs : FS),
      a ≤ j → j < a + n →
      (∀ k, a ≤ k → k < j → existsPath fs (part k).path = false) →
      existsPath fs (part j).path = true →
      (∀ i k, a ≤ i → i < k → k ≤ j → (part i).path ≠ (part k).path) →
      splitChunks part false (List.range' a n) acc fs =
        (.error (.outputExists (part j).path),
         { files := fs.files ++ (List.range' a (j - a)).map part
           dirs := fs.dirs }) := by
  intro n
  induction n with
  | zero =>
    intro a acc fs haj hja _ _ _
    omega
  | succ n ih =>
    intro a acc fs haj hja hpre hex hdist
    rw [List.range'_succ]
    by_cases haeq : a = j
    · subst haeq
      simp [splitChunks, hex, Nat.sub_self]
    · have haj' : a < j := lt_of_le_of_ne haj haeq
      have hprea : existsPath fs (part a).path = false := hpre a le_rfl haj'
      simp only [splitChunks, hprea, Bool.false_and, Bool.false_eq_true,
        if_false, ite_false]
      have hih := ih (a + 1) (acc ++ [part a]) (writeFile fs (part a))
        (by omega) (by omega)
        (by
          intro k hk1 hk2
          rw [existsPath_writeFile, hpre k (by omega) hk2]
          have hne : (part a).path ≠ (part k).path :=
            hdist a k le_rfl (by omega) (le_of_lt hk2)
          simp [beq_eq_false_iff_ne.mpr (Ne.symm hne)])
        (by rw [existsPath_writeFile, hex]; simp)
        (by
          intro i k hi hik hkj
          exact hdist i k (by omega) hik hkj)
      rw [hih]
      have hja2 : j - a = (j - (a + 1)) + 1 := by omega
      rw [writeFile_files_of_not_exists fs (part a) hprea, writeFile_dirs,
        hja2, List.range'_succ]
      simp [List.append_assoc]

/-! ## Claim theorems -/

/-- C1: for every total page count `T > 0` and every `max_pages > 0`, a
successful `split_pdf` produces exactly `ceil(T/maxPages)` chunks whose
page ranges are contiguous, non-overlapping and cover `[1, T]` exactly
(chunk `k` spans `[k*m+1, min((k+1)*m, T)]`, the first chunk starts at
page 1, the last ends at page `T`); every chunk except possibly the
last spans exactly `max_pages` pages, the last spans
`T - max_pages*(parts-1)` pages, and the chunk page counts sum to `T`. -/
theorem split_chunk_partition
    (input_pdf : String) (doc : Doc) (cfg : Config) (mf : Nat → Bool)
    (fs : FS) (out : List PartFile) (fs' : FS)
    (hT : 0 < doc.pageCount) (hm : 0 < cfg.max_pages)
    (h : split_pdf input_pdf doc cfg mf fs = (.ok out, fs')) :
    out.length = partsCount doc.pageCount cfg.max_pages.toNat ∧
    (∀ k (hk : k < out.length),
      (out.get ⟨k, hk⟩).start1 = k * cfg.max_pages.toNat + 1 ∧
      (out.get ⟨k, hk⟩).end1 = min ((k + 1) * cfg.max_pages.toNat) doc.pageCount) ∧
    (∀ k (hk : k + 1 < out.length),
      (out.get ⟨k + 1, hk⟩).start1 = (out.get ⟨k, Nat.lt_of_succ_lt hk⟩).end1 + 1 ∧
      (out.get ⟨k, Nat.lt_of_succ_lt hk⟩).pages = cfg.max_pages.toNat) ∧
    (∀ hne : 0 < out.length,
      (out.get ⟨0, hne⟩).start1 = 1 ∧
      (out.get ⟨out.length - 1, by omega⟩).end1 = doc.pageCount ∧
      (out.get ⟨out.length - 1, by omega⟩).pages
        = doc.pageCount - cfg.max_pages.toNat * (out.length - 1)) ∧
    (out.map (fun pf => pf.pages)).sum = doc.pageCount := by
  have hm' : 0 < cfg.max_pages.toNat := by omega
  have hout := splitChunks_ok_eq _ _ _ _ _ _ _ (split_pdf_ok_elim h)
  rw [List.nil_append] at hout
  subst hout
  have hP : 0 < partsCount doc.pageCount cfg.max_pages.toNat := partsCount_pos hT hm'
  refine ⟨by simp, ?_, ?_, ?_, ?_⟩
  · intro k hk
    simp only [List.get_eq_getElem, List.getElem_map, List.getElem_range]
    exact ⟨chunkOf_start1 _ _ _ _ _, chunkOf_end1 hm' hT⟩
  · intro k hk
    simp only [List.length_map, List.length_range] at hk
    have hlt : (k + 1) * cfg.max_pages.toNat < doc.pageCount :=
      mul_lt_of_lt_partsCount hT hm' hk
    simp only [List.get_eq_getElem, List.getElem_map, List.getElem_range]
    constructor
    · rw [chunkOf_start1, chunkOf_end1 hm' hT, min_eq_left (le_of_lt hlt)]
    · rw [chunkOf_pages hm' hT, min_eq_left (le_of_lt hlt), Nat.succ_mul,
        Nat.add_sub_cancel_left]
  · intro hne
    simp only [List.get_eq_getElem, List.getElem_map, List.getElem_range,
      List.length_map, List.length_range]
    refine ⟨by rw [chunkOf_start1]; simp, ?_, ?_⟩
    · rw [chunkOf_end1 hm' hT, Nat.sub_add_cancel hP,
        min_eq_right (le_partsCount_mul hT hm')]
    · rw [chunkOf_pages hm' hT, Nat.sub_add_cancel hP,
        min_eq_right (le_partsCount_mul hT hm'), Nat.mul_comm]
  · rw [List.map_map]
    have hmap : List.map ((fun pf => pf.pages) ∘ chunkOf input_pdf doc cfg mf)
        (List.range (partsCount doc.pageCount cfg.max_pages.toNat))
        = List.map
            (fun k => min ((k + 1) * cfg.max_pages.toNat) doc.pageCount
              - k * cfg.max_pages.toNat)
            (List.range (partsCount doc.pageCount cfg.max_pages.toNat)) :=
      List.map_congr_left (fun k _ => chunkOf_pages hm' hT)
    rw [hmap, sum_range_min_sub, min_eq_right (le_partsCount_mul hT hm')]

/-- Witness for C1: the 23-page document with the default
`max_pages = 10` splits successfully into exactly
`partsCount 23 10 = 3` chunks. -/
theorem split_chunk_partition_witness :
    (0 : Int) < cfgA.max_pages ∧ 0 < docA.pageCount ∧
      outA.length = partsCount docA.pageCount cfgA.max_pages.toNat :=
  ⟨by decide, by decide,
    (split_chunk_partition "demo.pdf" docA cfgA mfFalse fs0 outA fsA
      (by decide) (by decide) (by decide)).1⟩

/-- C2: when chunk `j`'s resolved output path already exists and
`overwrite` is false (and the chunk paths up to `j` are distinct and
not previously taken), `split_pdf` fails with the `FileExistsError`
for that path before writing chunk `j`, aborting the whole split, and
the filesystem keeps exactly the chunks written earlier in the same
run — no rollback. -/
theorem split_output_exists_aborts
    (input_pdf : String) (doc : Doc) (cfg : Config) (mf : Nat → Bool)
    (fs : FS) (j : Nat)
    (hm : 0 < cfg.max_pages) (henc : doc.isEncrypted = false)
    (hov : cfg.overwrite = false)
    (hj : j < partsCount doc.pageCount cfg.max_pages.toNat)
    (hpre : ∀ k < j, existsPath fs (chunkOf input_pdf doc cfg mf k).path = false)
    (hex : existsPath fs (chunkOf input_pdf doc cfg mf j).path = true)
    (hdist : ∀ i < j + 1, ∀ k < j + 1, i < k →
      (chunkOf input_pdf doc cfg mf i).path ≠ (chunkOf input_pdf doc cfg mf k).path) :
    split_pdf input_pdf doc cfg mf fs =
      (.error (.outputExists (chunkOf input_pdf doc cfg mf j).path),
       { files := fs.files ++ (List.range j).map (chunkOf input_pdf doc cfg mf)
         dirs := mkdirP fs.dirs (resolvedOutDir input_pdf cfg) }) := by
  rw [split_pdf_run mf fs henc hm, hov,
    List.range_eq_range' (partsCount doc.pageCount cfg.max_pages.toNat)]
  have habort := splitChunks_abort (chunkOf input_pdf doc cfg mf) j
    (partsCount doc.pageCount cfg.max_pages.toNat) 0 []
    (mkdirFS fs (resolvedOutDir input_pdf cfg))
    (Nat.zero_le j) (by omega)
    (fun k _ hk => hpre k hk)
    hex
    (fun i k _ hik hkj => hdist i (by omega) k (by omega) hik)
  rw [habort]
  simp [Nat.sub_zero, List.range_eq_range', mkdirFS]

/-- Witness for C2: with `demo_part_02.pdf` already on disk, the
23-page split writes chunk 1 and aborts on chunk 2 with
`FileExistsError`, keeping chunk 1 on disk. -/
theorem split_output_exists_aborts_witness :
    existsPath fsB (chunkOf "demo.pdf" docA cfgA mfFalse 1).path = true ∧
      split_pdf "demo.pdf" docA cfgA mfFalse fsB =
        (.error (.outputExists (chunkOf "demo.pdf" docA cfgA mfFalse 1).path),
         { files := fsB.files ++ (List.range 1).map (chunkOf "demo.pdf" docA cfgA mfFalse)
           dirs := mkdirP fsB.dirs (resolvedOutDir "demo.pdf" cfgA) }) :=
  ⟨by decide,
    split_output_exists_aborts "demo.pdf" docA cfgA mfFalse fsB 1
      (by decide) (by decide) (by decide) (by decide) (by decide) (by decide)
      (by decide)⟩

/-- C4: for an encrypted source, `split_pdf` fails with the
missing-password `ValueError` when no password is supplied; with a
supplied password failing authentication it fails with an
authentication `ValueError` (the missing-password one when the
supplied password is the empty string, the wrong-password one
otherwise); with a password that authenticates it proceeds exactly as
on the same document unencrypted. -/
theorem split_encrypted_auth
    (input_pdf : String) (doc : Doc) (cfg : Config) (mf : Nat → Bool) (fs : FS)
    (henc : doc.isEncrypted = true) (hm : 0 < cfg.max_pages) :
    (cfg.password = none →
      split_pdf input_pdf doc cfg mf fs
        = (.error .encryptedNoPassword, mkdirFS fs (resolvedOutDir input_pdf cfg))) ∧
    (∀ pw, cfg.password = some pw → doc.auth pw = false →
      split_pdf input_pdf doc cfg mf fs
        = (.error (if pw = "" then SplitError.encryptedNoPassword
              else SplitError.wrongPassword),
           mkdirFS fs (resolvedOutDir input_pdf cfg))) ∧
    (∀ pw, cfg.password = some pw → pw ≠ "" → doc.auth pw = true →
      split_pdf input_pdf doc cfg mf fs
        = split_pdf input_pdf { doc with isEncrypted := false } cfg mf fs) := by
  refine ⟨?_, ?_, ?_⟩
  · intro hpw
    unfold split_pdf
    rw [if_neg (by omega), henc, hpw]
    simp [passwordMissing]
  · intro pw hpw hauth
    unfold split_pdf
    rw [if_neg (by omega), henc, hpw]
    by_cases hempty : pw = ""
    · subst hempty
      simp [passwordMissing]
    · simp [passwordMissing, hempty, hauth]
  · intro pw hpw hne hauth
    have hch : chunkOf input_pdf { doc with isEncrypted := false } cfg mf
        = chunkOf input_pdf doc cfg mf := by
      funext idx
      rfl
    unfold split_pdf
    rw [henc, hpw]
    simp [passwordMissing, hne, hauth, hch]

/-- Witness for C4: the encrypted document rejects the password
`bad` with the wrong-password error. -/
theorem split_encrypted_auth_witness :
    docE.isEncrypted = true ∧
      split_pdf "e.pdf" docE cfgWrong mfFalse fs0
        = (.error .wrongPassword, mkdirFS fs0 (resolvedOutDir "e.pdf" cfgWrong)) := by
  refine ⟨rfl, ?_⟩
  have h := (split_encrypted_auth "e.pdf" docE cfgWrong mfFalse fs0 rfl
    (by decide)).2.1 "bad" rfl (by decide)
  rw [if_neg (by decide)] at h
  exact h

/-- C8: whenever `max_pages ≤ 0`, `split_pdf` fails with the
`ValueError` for an invalid `max_pages` and writes no output file. -/
theorem split_invalid_max_pages
    (input_pdf : String) (doc : Doc) (cfg : Config) (mf : Nat → Bool) (fs : FS)
    (hm : cfg.max_pages ≤ 0) :
    split_pdf input_pdf doc cfg mf fs
      = (.error .invalidMaxPages, mkdirFS fs (resolvedOutDir input_pdf cfg)) ∧
    (split_pdf input_pdf doc cfg mf fs).2.files = fs.files := by
  have h1 : split_pdf input_pdf doc cfg mf fs
      = (.error .invalidMaxPages, mkdirFS fs (resolvedOutDir input_pdf cfg)) := by
    unfold split_pdf
    rw [if_pos hm]
  exact ⟨h1, by rw [h1]; rfl⟩

/-- Witness for C8: `max_pages = 0` is rejected with no file written. -/
theorem split_invalid_max_pages_witness :
    cfgZero.max_pages ≤ 0 ∧
      split_pdf "demo.pdf" docA cfgZero mfFalse fs0
        = (.error .invalidMaxPages, mkdirFS fs0 (resolvedOutDir "demo.pdf" cfgZero)) ∧
      (split_pdf "demo.pdf" docA cfgZero mfFalse fs0).2.files = fs0.files :=
  ⟨by decide,
    (split_invalid_max_pages "demo.pdf" docA cfgZero mfFalse fs0 (by decide)).1,
    (split_invalid_max_pages "demo.pdf" docA cfgZero mfFalse fs0 (by decide)).2⟩

/-- C9: with a non-positive `max_pages` the call still creates the
output directory (including intermediate directories) before raising
the invalid-argument error — the failure is not free of filesystem
side effects. -/
theorem split_mkdir_before_validation
    (input_pdf : String) (doc : Doc) (cfg : Config) (mf : Nat → Bool) (fs : FS)
    (hm : cfg.max_pages ≤ 0) :
    (split_pdf input_pdf doc cfg mf fs).1 = .error .invalidMaxPages ∧
    ∀ d ∈ ancestors (resolvedOutDir input_pdf cfg),
      d ∈ (split_pdf input_pdf doc cfg mf fs).2.dirs := by
  have h1 : split_pdf input_pdf doc cfg mf fs
      = (.error .invalidMaxPages, mkdirFS fs (resolvedOutDir input_pdf cfg)) := by
    unfold split_pdf
    rw [if_pos hm]
  refine ⟨by rw [h1], ?_⟩
  intro d hd
  rw [h1]
  exact mem_mkdirP fs.dirs _ d hd

/-- Witness for C9: with `max_pages = -3` and output directory
`out/sub`, both `out` and `out/sub` exist after the failing call. -/
theorem split_mkdir_before_validation_witness :
    cfgNeg.max_pages ≤ 0 ∧
      (split_pdf "demo.pdf" docA cfgNeg mfFalse fs0).1 = .error .invalidMaxPages ∧
      "out" ∈ (split_pdf "demo.pdf" docA cfgNeg mfFalse fs0).2.dirs ∧
      "out/sub" ∈ (split_pdf "demo.pdf" docA cfgNeg mfFalse fs0).2.dirs :=
  ⟨by decide,
    (split_mkdir_before_validation "demo.pdf" docA cfgNeg mfFalse fs0 (by decide)).1,
    (split_mkdir_before_validation "demo.pdf" docA cfgNeg mfFalse fs0 (by decide)).2
      "out" (by decide),
    (split_mkdir_before_validation "demo.pdf" docA cfgNeg mfFalse fs0 (by decide)).2
      "out/sub" (by decide)⟩

/-- C10: for an encrypted source, the empty-string password is treated
exactly like no password at all: `split_pdf` raises the
missing-password error without attempting authentication (the
document's `auth` oracle is arbitrary, and the run coincides with the
`password = None` run). -/
theorem split_empty_password_missing
    (input_pdf : String) (doc : Doc) (cfg : Config) (mf : Nat → Bool) (fs : FS)
    (hm : 0 < cfg.max_pages) (henc : doc.isEncrypted = true) :
    (cfg.password = some "" →
      split_pdf input_pdf doc cfg mf fs
        = (.error .encryptedNoPassword, mkdirFS fs (resolvedOutDir input_pdf cfg))) ∧
    split_pdf input_pdf doc { cfg with password := some "" } mf fs
      = split_pdf input_pdf doc { cfg with password := none } mf fs := by
  constructor
  · intro hpw
    unfold split_pdf
    rw [if_neg (by omega), henc, hpw]
    simp [passwordMissing]
  · rfl

/-- Witness for C10: a document whose `auth` accepts every string,
including the empty one, still fails with the missing-password error
under `password = ""`, identically to `password = None`. -/
theorem split_empty_password_missing_witness :
    docAcceptAll.auth "" = true ∧
      split_pdf "e.pdf" docAcceptAll cfgEmptyPw mfFalse fs0
        = (.error .encryptedNoPassword,
           mkdirFS fs0 (resolvedOutDir "e.pdf" cfgEmptyPw)) ∧
      split_pdf "e.pdf" docAcceptAll cfgEmptyPw mfFalse fs0
        = split_pdf "e.pdf" docAcceptAll { cfgEmptyPw with password := none }
            mfFalse fs0 :=
  ⟨rfl,
    (split_empty_password_missing "e.pdf" docAcceptAll cfgEmptyPw mfFalse fs0
      (by decide) rfl).1 rfl,
    (split_empty_password_missing "e.pdf" docAcceptAll cfgEmptyPw mfFalse fs0
      (by decide) rfl).2⟩

/-- C6: with `overwrite = true`, re-running `split_pdf` on the same
input document and configuration against the filesystem left by the
first run reproduces the first run's result — the chunk computation
and output naming are deterministic in the document, `max_pages` and
the pattern, and do not depend on the filesystem. -/
theorem split_idempotent_overwrite
    (input_pdf : String) (doc : Doc) (cfg : Config) (mf : Nat → Bool)
    (fs : FS) (r : Except SplitError (List PartFile)) (fs' : FS)
    (hov : cfg.overwrite = true)
    (h : split_pdf input_pdf doc cfg mf fs = (r, fs')) :
    (split_pdf input_pdf doc cfg mf fs').1 = r := by
  unfold split_pdf at h ⊢
  by_cases h1 : cfg.max_pages ≤ 0
  · rw [if_pos h1] at h ⊢
    simpa using congrArg Prod.fst h
  · rw [if_neg h1] at h ⊢
    by_cases h2 : (doc.isEncrypted && passwordMissing cfg.password) = true
    · rw [if_pos h2] at h ⊢
      simpa using congrArg Prod.fst h
    · rw [if_neg h2] at h ⊢
      by_cases h3 : (doc.isEncrypted && !(doc.auth (cfg.password.getD ""))) = true
      · rw [if_pos h3] at h ⊢
        simpa using congrArg Prod.fst h
      · rw [if_neg h3] at h ⊢
        rw [hov] at h ⊢
        rw [splitChunks_fst_overwrite (chunkOf input_pdf doc cfg mf)
          (List.range (partsCount doc.pageCount cfg.max_pages.toNat)) []
          (mkdirFS fs' (resolvedOutDir input_pdf cfg))
          (mkdirFS fs (resolvedOutDir input_pdf cfg))]
        simpa using congrArg Prod.fst h

/-- Witness for C6: after the first successful split of the 23-page
document, a second run with `overwrite = true` on the resulting
filesystem returns the same chunk list. -/
theorem split_idempotent_overwrite_witness :
    cfgOW.overwrite = true ∧
      (split_pdf "demo.pdf" docA cfgOW mfFalse fsA).1 = .ok outA :=
  ⟨rfl,
    split_idempotent_overwrite "demo.pdf" docA cfgOW mfFalse fs0 (.ok outA) fsA
      rfl (by decide)⟩

/-- C7: the outcome of `split_pdf` — success or failure, the chunk
paths and page ranges written, and the rest of the filesystem — is
the same whatever the metadata-copy failure oracle says: a
`set_metadata` failure is swallowed and the chunk is still written.
When `keep_metadata` is true, a chunk whose metadata copy succeeded
carries the source document's metadata, and a chunk whose copy failed
carries the fresh-document default. -/
theorem split_metadata_swallowed
    (input_pdf : String) (doc : Doc) (cfg : Config) (fs : FS) :
    (∀ f g : Nat → Bool,
      scrubRes (split_pdf input_pdf doc cfg f fs)
        = scrubRes (split_pdf input_pdf doc cfg g fs)) ∧
    (∀ (f : Nat → Bool) (out : List PartFile) (fs' : FS),
      split_pdf input_pdf doc cfg f fs = (.ok out, fs') →
      cfg.keep_metadata = true →
      ∀ k (hk : k < out.length),
        (out.get ⟨k, hk⟩).metadata
          = if f k = true then [] else doc.metadata) := by
  constructor
  · intro f g
    unfold split_pdf
    by_cases h1 : cfg.max_pages ≤ 0
    · rw [if_pos h1, if_pos h1]
    · rw [if_neg h1, if_neg h1]
      by_cases h2 : (doc.isEncrypted && passwordMissing cfg.password) = true
      · rw [if_pos h2, if_pos h2]
      · rw [if_neg h2, if_neg h2]
        by_cases h3 : (doc.isEncrypted && !(doc.auth (cfg.password.getD ""))) = true
        · rw [if_pos h3, if_pos h3]
        · rw [if_neg h3, if_neg h3]
          exact splitChunks_scrub (chunkOf input_pdf doc cfg f)
            (chunkOf input_pdf doc cfg g) (fun i => rfl) cfg.overwrite
            (List.range (partsCount doc.pageCount cfg.max_pages.toNat)) [] []
            (mkdirFS fs (resolvedOutDir input_pdf cfg))
            (mkdirFS fs (resolvedOutDir input_pdf cfg)) rfl rfl
  · intro f out fs' h hkm k hk
    have hout := splitChunks_ok_eq _ _ _ _ _ _ _ (split_pdf_ok_elim h)
    rw [List.nil_append] at hout
    subst hout
    simp only [List.get_eq_getElem, List.getElem_map, List.getElem_range]
    show (if cfg.keep_metadata && !(f k) then doc.metadata else []) = _
    rw [hkm]
    by_cases hf : f k = true
    · simp [hf]
    · simp only [Bool.not_eq_true] at hf
      simp [hf]

/-- Witness for C7: a run whose metadata copy fails on the first chunk
only differs from a clean run in chunk metadata, and chunk 0 of that
run carries the default metadata while the claim's conditional agrees. -/
theorem split_metadata_swallowed_witness :
    scrubRes (split_pdf "demo.pdf" docA cfgA mfFirst fs0)
        = scrubRes (split_pdf "demo.pdf" docA cfgA mfFalse fs0) ∧
      cfgA.keep_metadata = true ∧
      (outF.get ⟨0, by decide⟩).metadata
        = if mfFirst 0 = true then [] else docA.metadata :=
  ⟨(split_metadata_swallowed "demo.pdf" docA cfgA fs0).1 mfFirst mfFalse,
    rfl,
    (split_metadata_swallowed "demo.pdf" docA cfgA fs0).2 mfFirst outF fsF
      (by decide) rfl 0 (by decide)⟩

/-- Counterexample for C3: in the claimed scenario `b.PDF` is NOT
returned by directory discovery with the default settings, because the
directory branch of `find_pdfs` delegates to `pathlib` glob matching,
which on POSIX matches `*.pdf` case-sensitively; the case-insensitive
suffix test applies only to paths passed directly as files. -/
theorem find_pdfs_case_counterexample :
    ¬ ("d/b.PDF" ∈ find_pdfs dfsC3 ["d"] true "*.pdf") := by decide

/-- C3 (amended): for the directory containing `a.pdf`, `b.PDF`,
`c.txt` and a symlink duplicate of `a.pdf`, discovery with default
settings returns exactly `a.pdf` once — the symlink duplicate is
removed by resolved identity, `c.txt` does not match the glob, and
`b.PDF` is excluded because the directory glob is case-sensitive on
POSIX.  The case-insensitive `.pdf` extension match applies to paths
passed directly as files: passing the four entries directly returns
`a.pdf` and `b.PDF` exactly once each. -/
theorem find_pdfs_discovery_amended :
    find_pdfs dfsC3 ["d"] true "*.pdf" = ["d/a.pdf"] ∧
      find_pdfs dfsC3 ["d/a.pdf", "d/link.pdf", "d/b.PDF", "d/c.txt"] true "*.pdf"
        = ["d/a.pdf", "d/b.PDF"] := by decide

/-- C5: `split_many` discovers with the default `*.pdf` pattern and
then splits each file independently with the shared configuration
(the per-file output directory defaulting to the file's own parent
unless a common output directory is given); results are concatenated
in discovery order; a failure on one file is not caught — it
propagates immediately, aborting the remaining files while the
filesystem keeps everything already written. -/
theorem split_many_batch
    (dfs : DFS) (docOf : String → Doc) (mfOf : String → Nat → Bool)
    (mp : Int) (od op pw : Option String) (km ow : Bool) :
    (∀ (inputs : List String) (recursive : Bool) (fs : FS),
      split_many dfs docOf mfOf inputs mp od op recursive pw km ow fs
        = splitManyLoop docOf mfOf mp od op pw km ow
            (find_pdfs dfs inputs recursive "*.pdf") [] fs) ∧
    (∀ pdf, od = none → outDirFor od pdf = parentOf pdf) ∧
    (∀ pdf d, od = some d → d ≠ "" → outDirFor od pdf = d) ∧
    (∀ (pre post : List String) (acc acc' : List PartFile) (fs fs' : FS),
      splitManyLoop docOf mfOf mp od op pw km ow pre acc fs = (.ok acc', fs') →
      splitManyLoop docOf mfOf mp od op pw km ow (pre ++ post) acc fs
        = splitManyLoop docOf mfOf mp od op pw km ow post acc' fs') ∧
    (∀ (pre post : List String) (bad : String) (acc acc' : List PartFile)
        (fs fs' fs2 : FS) (e : SplitError),
      splitManyLoop docOf mfOf mp od op pw km ow pre acc fs = (.ok acc', fs') →
      split_pdf bad (docOf bad) (manyCfg mp od op pw km ow bad) (mfOf bad) fs'
        = (.error e, fs2) →
      splitManyLoop docOf mfOf mp od op pw km ow (pre ++ bad :: post) acc fs
        = (.error e, fs2)) ∧
    (∀ (pdf : String) (fs : FS) (r : Except SplitError (List PartFile))
        (fs' : FS) (q : String),
      split_pdf pdf (docOf pdf) (manyCfg mp od op pw km ow pdf) (mfOf pdf) fs
        = (r, fs') →
      existsPath fs q = true → existsPath fs' q = true) := by
  refine ⟨?_, ?_, ?_, ?_, ?_, ?_⟩
  · intro inputs recursive fs
    rfl
  · intro pdf h
    rw [h]
    rfl
  · intro pdf d h hne
    rw [h]
    simp [outDirFor, hne]
  · exact splitManyLoop_append docOf mfOf mp od op pw km ow
  · intro pre post bad acc acc' fs fs' fs2 e hpre hbad
    rw [splitManyLoop_append docOf mfOf mp od op pw km ow pre (bad :: post)
      acc acc' fs fs' hpre]
    simp only [splitManyLoop, hbad]
  · intro pdf fs r fs' q h hq
    exact split_pdf_preserve pdf (docOf pdf) (manyCfg mp od op pw km ow pdf)
      (mfOf pdf) fs r fs' q h hq

/-- Witness for C5: a batch of two files whose first file is encrypted
with no password aborts at the first file with the authentication
error, never touching the second, with the filesystem as the failing
call left it. -/
theorem split_many_batch_witness :
    splitManyLoop docOfEnc mfOfFalse 10 none none none true false [] [] fs0
        = (.ok [], fs0) ∧
      splitManyLoop docOfEnc mfOfFalse 10 none none none true false
          ["a.pdf", "b.pdf"] [] fs0
        = (.error .encryptedNoPassword, { files := [], dirs := ["."] }) :=
  ⟨rfl,
    (split_many_batch dfsC3 docOfEnc mfOfFalse 10 none none none true
        false).2.2.2.2.1
      [] ["b.pdf"] "a.pdf" [] [] fs0 fs0 { files := [], dirs := ["."] }
      .encryptedNoPassword rfl (by decide)⟩

end PdfSplit
